import Mathlib

/-!
Verification of the image-resize Lambda (`src/index.js`): the `ResizeStyle`
style-token parser and the request pipeline (async waterfall) are embedded
shallowly.  Strings are modelled as `List Char` (`Str`); JS `String.split`
on a single-character separator is `splitOnChar`; the regexes of the source
are embedded as decidable predicates; JS numeric coercion of digit strings
is `toNat10`.
-/

/-- JS strings, modelled as lists of characters. -/
abbrev Str := List Char

/-- ASCII lower-casing of one character, as `String.prototype.toLowerCase`
acts on the characters this program ever lowercases (ASCII letters; other
characters are left unchanged). -/
def lowerC (c : Char) : Char :=
  if 65 ≤ c.toNat && c.toNat ≤ 90 then Char.ofNat (c.toNat + 32) else c

/-- `s.toLowerCase()`. -/
def toLowerS (s : Str) : Str := s.map lowerC

/-- `s.split(sep)` for a one-character separator, as in the source
(`split('.')`, `split('x')`, `split('/')`). -/
def splitOnChar (sep : Char) : Str → List Str
  | [] => [[]]
  | c :: rest =>
    match splitOnChar sep rest with
    | [] => [[]]
    | h :: t => if c = sep then [] :: h :: t else (c :: h) :: t

/-- The character class `[0-9]`. -/
def isDigitC (c : Char) : Bool := 48 ≤ c.toNat && c.toNat ≤ 57

/-- The character class `[0-9a-f]` (lower-case hex, as in the
case-sensitive background regex). -/
def isHexLower (c : Char) : Bool :=
  isDigitC c || (97 ≤ c.toNat && c.toNat ≤ 102)

/-- Numeric value of a digit string; `0` on the empty string.  This is the
value JS produces when a digits-only string (or `0` for the empty segment)
is compared against a number. -/
def toNat10 (s : Str) : Nat := s.foldl (fun n c => n * 10 + (c.toNat - 48)) 0

/-- The test `/^fi(t|ll)$/i.test(s)` (source line 300). -/
def coverRe (s : Str) : Bool :=
  toLowerS s = "fit".toList || toLowerS s = "fill".toList

/-- The test `/^([0-9]+x[0-9]*|[0-9]*x[0-9]+)$/.test(s)` (source line 306):
exactly one `x`, digits on both sides, at least one side non-empty. -/
def whRe (s : Str) : Bool :=
  match splitOnChar 'x' s with
  | [a, b] => a.all isDigitC && b.all isDigitC && (!a.isEmpty || !b.isEmpty)
  | _ => false

/-- The test `/^(jpg|png|gif|)$/i.test(s)` (source line 322); the last,
empty alternative makes the empty string match. -/
def formatRe (s : Str) : Bool :=
  toLowerS s = "jpg".toList || toLowerS s = "png".toList ||
    toLowerS s = "gif".toList || toLowerS s = []

/-- The test `/^([0-9a-f]{3}|[0-9a-f]{6})$/.test(s)` (source line 328). -/
def bgRe (s : Str) : Bool :=
  (s.length = 3 || s.length = 6) && s.all isHexLower

/-- The `ResizeStyle` object.  Fields that the JS constructor leaves
`undefined` on an early exit keep their default `[]`; every method the
program actually calls in such a state (`isValid`, `isKeepAspect`,
`getIndexName`) observes the default exactly as JS observes `undefined`
(falsy, and unused by `getIndexName` when `enable` is false).
`canvas_w`/`canvas_h` of the source (`canvas_w_string || 0`) are not stored:
their numeric value is `toNat10` of the literal (`getWidth`/`getHeight`)
and their JS truthiness is "literal non-empty" (`isKeepAspect`). -/
structure ResizeStyle where
  enable : Bool
  cover : Str := []
  canvas_w_string : Str := []
  canvas_h_string : Str := []
  format : Str := []
  background : Str := []
deriving DecidableEq, Repr

/-- `ResizeStyle.maxDimension`. -/
def maxDim : Nat := 2048

/-- `arr[0]` of `params.split('.')` (always defined: a split is never
empty). -/
def seg0 (t : Str) : Str := (splitOnChar '.' t).headD []

/-- `arr[i]` of `params.split('.')` as the constructor's regex tests see
it: an out-of-range access is `undefined` in JS, and `test(undefined)`
tests the string `"undefined"` (which none of the segment regexes
match). -/
def seg (t : Str) (i : Nat) : Str :=
  ((splitOnChar '.' t).get? i).getD "undefined".toList

/-- `canvas[0] || ''`: the width literal of the token (source line 311). -/
def wlit (t : Str) : Str := (splitOnChar 'x' (seg t 1)).headD []

/-- `canvas[1] || ''`: the height literal of the token (source line 312). -/
def hlit (t : Str) : Str := ((splitOnChar 'x' (seg t 1)).get? 1).getD []

/-- The `ResizeStyle` constructor (source lines 291-334) applied to a
string argument (the handler always passes `request[1] || ''`, a string,
so the `typeof params` guard never fires).  The `false === regex.test(…)`
guards appear as `= false` conditions; the `>` comparisons coerce the
stored digit literal to its numeric value, which is `toNat10`. -/
def parseStyle (params : Str) : ResizeStyle :=
  if coverRe (seg0 params) = false then
    { enable := false }
  else if whRe (seg params 1) = false then
    { enable := false, cover := seg0 params }
  else if toNat10 (wlit params) > maxDim ∨ toNat10 (hlit params) > maxDim then
    { enable := false, cover := seg0 params,
      canvas_w_string := wlit params, canvas_h_string := hlit params }
  else
    { enable := true, cover := seg0 params,
      canvas_w_string := wlit params, canvas_h_string := hlit params,
      format := if formatRe (seg params 2) = true then seg params 2 else "jpg".toList,
      background := if bgRe (seg params 3) = true then seg params 3 else "none".toList }

namespace ResizeStyle

/-- `isValid()`. -/
def isValid (r : ResizeStyle) : Bool := r.enable

/-- `isKeepAspect()`: `!this.canvas_w || !this.canvas_h`, where
`canvas_w` is the literal string when non-empty (truthy, including `"0"`)
and `0`/`undefined` (falsy) otherwise. -/
def isKeepAspect (r : ResizeStyle) : Bool :=
  r.canvas_w_string.isEmpty || r.canvas_h_string.isEmpty

/-- Numeric value of `getWidth()` (the stored string coerces to this
number wherever the program compares or resizes with it). -/
def getWidth (r : ResizeStyle) : Nat := toNat10 r.canvas_w_string

/-- Numeric value of `getHeight()`. -/
def getHeight (r : ResizeStyle) : Nat := toNat10 r.canvas_h_string

/-- `getFormat()`. -/
def getFormat (r : ResizeStyle) : Str := r.format

/-- `getContentType()`. -/
def getContentType (r : ResizeStyle) : Str :=
  if r.format = "jpg".toList then "image/jpeg".toList
  else "image/".toList ++ r.format

/-- `getIndexName()` (source lines 344-361): the cache-key suffix. -/
def getIndexName (r : ResizeStyle) : Str :=
  if r.enable then
    toLowerS (r.cover ++ '.' :: r.canvas_w_string ++ 'x' :: r.canvas_h_string
      ++ '.' :: r.format ++ '.' :: r.background)
  else
    "full".toList

/-- `getResizeData(original_w, original_h)` (source lines 391-430).  The
`===` comparison with `'fit'` is exact string equality (case-sensitive,
unlike the constructor's case-insensitive regex). -/
def getResizeData (r : ResizeStyle) (ow oh : Nat) : Nat × Nat :=
  if ow < oh then
    if r.cover = "fit".toList then
      (0, if oh < r.getHeight then oh else r.getHeight)
    else
      ((if ow < r.getWidth then ow else r.getWidth), 0)
  else
    if r.cover = "fit".toList then
      ((if ow < r.getWidth then ow else r.getWidth), 0)
    else
      (0, if oh < r.getHeight then oh else r.getHeight)

end ResizeStyle

/-! ## The request pipeline -/

/-- Octet sequences (S3 object bodies, image buffers). -/
abbrev Bytes := List Nat

/-- The base64 alphabet. -/
def b64Alphabet : Str :=
  "ABCDEFGHIJKLMNOPQRSTUVWXYZabcdefghijklmnopqrstuvwxyz0123456789+/".toList

/-- Character `n` of the base64 alphabet. -/
def b64Char (n : Nat) : Char := b64Alphabet.getD n 'A'

/-- `new Buffer(body, 'binary').toString('base64')`: standard base64 with
padding; each input is truncated to an octet as the `binary` encoding
does. -/
def base64Encode : Bytes → Str
  | [] => []
  | [a] =>
    [b64Char (a % 256 / 4), b64Char (a % 256 % 4 * 16), '=', '=']
  | [a, b] =>
    [b64Char (a % 256 / 4), b64Char (a % 256 % 4 * 16 + b % 256 / 16),
     b64Char (b % 256 % 16 * 4), '=']
  | a :: b :: c :: rest =>
    b64Char (a % 256 / 4) :: b64Char (a % 256 % 4 * 16 + b % 256 / 16)
      :: b64Char (b % 256 % 16 * 4 + c % 256 / 64) :: b64Char (c % 256 % 64)
      :: base64Encode rest

/-- An S3 object as the handler reads it: body, content type, and the
truthiness of `Metadata.deleted`. -/
structure S3Object where
  body : Bytes
  contentType : Str
  deletedMeta : Bool
deriving DecidableEq, Repr

/-- Result of one `s3.getObject` call. -/
inductive GetResult where
  | found (obj : S3Object)
  | err (e : Str)
deriving DecidableEq, Repr

/-- Result of one image-transformer chain. -/
inductive ImgResult where
  | ok (body : Bytes)
  | err (e : Str)
deriving DecidableEq, Repr

/-- The external world for one request: what each external call would
return.  Each call is made at most once per run, so a plain value per call
site suffices. -/
structure Env where
  cacheGet : GetResult
  originGet : GetResult
  uploadOk : Bool
  resizeResult : ImgResult
  convertResult : ImgResult
deriving DecidableEq, Repr

/-- Externally visible effects of a run, in order. -/
inductive Effect where
  | cacheGetE (key : Str)
  | originGetE (key : Str)
  | cachePutE (key : Str) (body : Bytes) (contentType : Str)
  | resizeOpE
  | convertOpE
deriving DecidableEq, Repr

/-- The exception classes that terminate the waterfall without a response
(the response callback logs them, or — for `DeletedException` — matches no
`instanceof` branch, and never invokes the Lambda callback). -/
inductive FailureKind where
  | notFound
  | deleted
  | uploadFailed
  | resizeFailed
  | convertFailed
deriving DecidableEq, Repr

/-- The `Payload` object handed to the Lambda callback. -/
structure Payload where
  statusCode : Nat
  contentTypeHeader : Option Str
  isBase64Encoded : Bool
  body : Str
deriving DecidableEq, Repr

/-- How a run of the handler ends: a payload passed to the callback, or a
silent termination carrying only a logged failure kind. -/
inductive Outcome where
  | response (p : Payload)
  | noResponse (k : FailureKind)
deriving DecidableEq, Repr

/-- The payload built by `ExistCacheException`, `CouldNotResizeException`
and `Magicked` (all identical: 200, Content-Type header, base64 body). -/
def mkPayload (body : Bytes) (ct : Str) : Payload :=
  { statusCode := 200, contentTypeHeader := some ct,
    isBase64Encoded := true, body := base64Encode body }

/-- `request[0]` of `event.pathParameters.filename.split('/')`. -/
def filenameOf (path : Str) : Str := (splitOnChar '/' path).headD []

/-- `request[1] || ''`. -/
def paramsOf (path : Str) : Str := ((splitOnChar '/' path).get? 1).getD []

/-- The handler's waterfall (source lines 166-280), as a function from the
request path, the two key prefixes and the external world to the outcome
and the list of effects performed.  Any error from the cache `getObject`
takes the miss branch (`callback(null)`); an origin error raises
`NotFoundException`; a truthy deleted flag raises `DeletedException`; an
invalid style uploads the original under the `_full` key and raises
`CouldNotResizeException` on success; otherwise `resize` (keep-aspect) or
`convert` runs and the result is uploaded and returned via `Magicked`. -/
def handler (path cachePfx origPfx : Str) (env : Env) : Outcome × List Effect :=
  let resizeStyle := parseStyle (paramsOf path)
  let cacheKey := cachePfx ++ filenameOf path ++ '_' :: resizeStyle.getIndexName
  let t0 := [Effect.cacheGetE cacheKey]
  match env.cacheGet with
  | .found obj => (.response (mkPayload obj.body obj.contentType), t0)
  | .err _ =>
    let t1 := t0 ++ [Effect.originGetE (origPfx ++ filenameOf path)]
    match env.originGet with
    | .err _ => (.noResponse .notFound, t1)
    | .found obj =>
      if obj.deletedMeta then
        (.noResponse .deleted, t1)
      else if !resizeStyle.isValid then
        let t2 := t1 ++ [Effect.cachePutE cacheKey obj.body obj.contentType]
        if env.uploadOk then (.response (mkPayload obj.body obj.contentType), t2)
        else (.noResponse .uploadFailed, t2)
      else if resizeStyle.isKeepAspect then
        let t3 := t1 ++ [Effect.resizeOpE]
        match env.resizeResult with
        | .err _ => (.noResponse .resizeFailed, t3)
        | .ok newBody =>
          let ct := resizeStyle.getContentType
          let t4 := t3 ++ [Effect.cachePutE cacheKey newBody ct]
          if env.uploadOk then (.response (mkPayload newBody ct), t4)
          else (.noResponse .uploadFailed, t4)
      else
        let t3 := t1 ++ [Effect.convertOpE]
        match env.convertResult with
        | .err _ => (.noResponse .convertFailed, t3)
        | .ok newBody =>
          let ct := resizeStyle.getContentType
          let t4 := t3 ++ [Effect.cachePutE cacheKey newBody ct]
          if env.uploadOk then (.response (mkPayload newBody ct), t4)
          else (.noResponse .uploadFailed, t4)

/-! ## Helper lemmas -/

lemma lowerC_eq_self (c : Char) (h : c.toNat < 65 ∨ 90 < c.toNat) : lowerC c = c := by
  have hc : (65 ≤ c.toNat && c.toNat ≤ 90) = false := by
    rcases h with h | h <;> simp <;> omega
  simp [lowerC, hc]

lemma isDigitC_bounds (c : Char) (h : isDigitC c = true) :
    48 ≤ c.toNat ∧ c.toNat ≤ 57 := by
  simpa [isDigitC] using h

lemma isHexLower_bounds (c : Char) (h : isHexLower c = true) :
    (48 ≤ c.toNat ∧ c.toNat ≤ 57) ∨ (97 ≤ c.toNat ∧ c.toNat ≤ 102) := by
  simp [isHexLower, isDigitC] at h
  tauto

lemma ne_of_toNat_ne {c d : Char} (h : c.toNat ≠ d.toNat) : c ≠ d :=
  fun e => h (by rw [e])

lemma lowerC_digit {c : Char} (h : isDigitC c = true) : lowerC c = c := by
  have := isDigitC_bounds c h
  exact lowerC_eq_self c (Or.inl (by omega))

lemma lowerC_hex {c : Char} (h : isHexLower c = true) : lowerC c = c := by
  rcases isHexLower_bounds c h with h | h
  · exact lowerC_eq_self c (Or.inl (by omega))
  · exact lowerC_eq_self c (Or.inr (by omega))

lemma digit_ne_dot {c : Char} (h : isDigitC c = true) : c ≠ '.' := by
  have h1 := isDigitC_bounds c h
  have h2 : ('.').toNat = 46 := rfl
  exact ne_of_toNat_ne (by omega)

lemma digit_ne_x {c : Char} (h : isDigitC c = true) : c ≠ 'x' := by
  have h1 := isDigitC_bounds c h
  have h2 : ('x').toNat = 120 := rfl
  exact ne_of_toNat_ne (by omega)

lemma hex_ne_dot {c : Char} (h : isHexLower c = true) : c ≠ '.' := by
  have h1 := isHexLower_bounds c h
  have h2 : ('.').toNat = 46 := rfl
  exact ne_of_toNat_ne (by omega)

lemma toLowerS_digits {s : Str} (h : s.all isDigitC = true) : toLowerS s = s := by
  unfold toLowerS
  rw [List.all_eq_true] at h
  exact (List.map_congr_left fun c hc => lowerC_digit (h c hc)).trans (List.map_id s)

lemma toLowerS_hex {s : Str} (h : s.all isHexLower = true) : toLowerS s = s := by
  unfold toLowerS
  rw [List.all_eq_true] at h
  exact (List.map_congr_left fun c hc => lowerC_hex (h c hc)).trans (List.map_id s)

lemma splitOnChar_cons (sep c : Char) (rest : Str) :
    splitOnChar sep (c :: rest) =
      match splitOnChar sep rest with
      | [] => [[]]
      | h :: t => if c = sep then [] :: h :: t else (c :: h) :: t := rfl

lemma splitOnChar_ne_nil (sep : Char) (s : Str) : splitOnChar sep s ≠ [] := by
  induction s with
  | nil => simp [splitOnChar]
  | cons c rest ih =>
    rw [splitOnChar_cons]
    rcases hr : splitOnChar sep rest with _ | ⟨x, t⟩
    · simp
    · by_cases hc : c = sep <;> simp [hc]

lemma splitOnChar_no_sep {sep : Char} {s : Str} (h : ∀ c ∈ s, c ≠ sep) :
    splitOnChar sep s = [s] := by
  induction s with
  | nil => rfl
  | cons c rest ih =>
    have hrec := ih fun d hd => h d (List.mem_cons_of_mem _ hd)
    rw [splitOnChar_cons, hrec]
    simp [h c (List.mem_cons_self _ _)]

lemma splitOnChar_append_sep {sep : Char} {a b : Str} (h : ∀ c ∈ a, c ≠ sep) :
    splitOnChar sep (a ++ sep :: b) = a :: splitOnChar sep b := by
  induction a with
  | nil =>
    rw [List.nil_append, splitOnChar_cons]
    rcases hr : splitOnChar sep b with _ | ⟨x, t⟩
    · exact absurd hr (splitOnChar_ne_nil sep b)
    · simp
  | cons c rest ih =>
    have hrec := ih fun d hd => h d (List.mem_cons_of_mem _ hd)
    rw [List.cons_append, splitOnChar_cons, hrec]
    simp [h c (List.mem_cons_self _ _)]

lemma whRe_spec {s : Str} (h : whRe s = true) :
    splitOnChar 'x' s = [(splitOnChar 'x' s).headD [], ((splitOnChar 'x' s).get? 1).getD []] ∧
    ((splitOnChar 'x' s).headD []).all isDigitC = true ∧
    (((splitOnChar 'x' s).get? 1).getD []).all isDigitC = true ∧
    ((splitOnChar 'x' s).headD [] ≠ [] ∨ ((splitOnChar 'x' s).get? 1).getD [] ≠ []) := by
  unfold whRe at h
  rcases hs : splitOnChar 'x' s with _ | ⟨a, rest⟩
  · exact absurd hs (splitOnChar_ne_nil 'x' s)
  · rcases rest with _ | ⟨b, rest2⟩
    · rw [hs] at h; simp at h
    · rcases rest2 with _ | ⟨c, rest3⟩
      · rw [hs] at h
        simp only [Bool.and_eq_true, Bool.or_eq_true, Bool.not_eq_true'] at h
        refine ⟨rfl, by simpa using h.1.1, by simpa using h.1.2, ?_⟩
        simp only [List.headD_cons, List.get?_cons_succ, List.get?_cons_zero, Option.getD_some]
        rcases h.2 with h2 | h2
        · exact Or.inl (by simpa [List.isEmpty_iff] using h2)
        · exact Or.inr (by simpa [List.isEmpty_iff] using h2)
      · rw [hs] at h; simp at h

/-- A successful parse pins down every field: the three checks passed and
the record is the constructor's final state. -/
lemma parseStyle_enable_spec {t : Str} (h : (parseStyle t).enable = true) :
    coverRe (seg0 t) = true ∧ whRe (seg t 1) = true ∧
    toNat10 (wlit t) ≤ maxDim ∧ toNat10 (hlit t) ≤ maxDim ∧
    parseStyle t =
      { enable := true, cover := seg0 t,
        canvas_w_string := wlit t, canvas_h_string := hlit t,
        format := if formatRe (seg t 2) = true then seg t 2 else "jpg".toList,
        background := if bgRe (seg t 3) = true then seg t 3 else "none".toList } := by
  by_cases hc : coverRe (seg0 t) = true
  case neg =>
    have hc' : coverRe (seg0 t) = false := by simpa using hc
    simp [parseStyle, hc'] at h
  case pos =>
  have hc' : ¬(coverRe (seg0 t) = false) := by simp [hc]
  by_cases hw : whRe (seg t 1) = true
  case neg =>
    have hw' : whRe (seg t 1) = false := by simpa using hw
    simp [parseStyle, hc', hw'] at h
  case pos =>
  have hw' : ¬(whRe (seg t 1) = false) := by simp [hw]
  by_cases hd : toNat10 (wlit t) > maxDim ∨ toNat10 (hlit t) > maxDim
  case pos =>
    unfold parseStyle at h
    rw [if_neg hc', if_neg hw', if_pos hd] at h
    simp at h
  case neg =>
  push_neg at hd
  refine ⟨hc, hw, hd.1, hd.2, ?_⟩
  unfold parseStyle
  rw [if_neg hc', if_neg hw', if_neg (by push_neg; exact hd)]

lemma map_lowerC_digits {s : Str} (h : s.all isDigitC = true) : s.map lowerC = s := by
  rw [List.all_eq_true] at h
  exact (List.map_congr_left fun c hc => lowerC_digit (h c hc)).trans (List.map_id s)

lemma map_lowerC_hex {s : Str} (h : s.all isHexLower = true) : s.map lowerC = s := by
  rw [List.all_eq_true] at h
  exact (List.map_congr_left fun c hc => lowerC_hex (h c hc)).trans (List.map_id s)

lemma coverRe_spec {s : Str} (h : coverRe s = true) :
    toLowerS s = "fit".toList ∨ toLowerS s = "fill".toList := by
  simpa [coverRe, Bool.or_eq_true, decide_eq_true_eq] using h

lemma bgRe_hex {s : Str} (h : bgRe s = true) : s.all isHexLower = true := by
  simp only [bgRe, Bool.and_eq_true] at h
  exact h.2

/-- The canonical right-nested shape of a four-segment dotted key. -/
def mkKey (a b c d : Str) : Str := a ++ '.' :: (b ++ '.' :: (c ++ '.' :: d))

lemma splitOnChar_mkKey {a b c d : Str}
    (h0 : ∀ x ∈ a, x ≠ '.') (h1 : ∀ x ∈ b, x ≠ '.')
    (h2 : ∀ x ∈ c, x ≠ '.') (h3 : ∀ x ∈ d, x ≠ '.') :
    splitOnChar '.' (mkKey a b c d) = [a, b, c, d] := by
  unfold mkKey
  rw [splitOnChar_append_sep h0, splitOnChar_append_sep h1, splitOnChar_append_sep h2,
    splitOnChar_no_sep h3]

/-- The index name of a valid spec, in the canonical shape, with digits
left untouched by the lower-casing. -/
lemma getIndexName_eq {t : Str} (h : (parseStyle t).enable = true) :
    (parseStyle t).getIndexName =
      mkKey (toLowerS (parseStyle t).cover)
        ((parseStyle t).canvas_w_string ++ 'x' :: (parseStyle t).canvas_h_string)
        (toLowerS (parseStyle t).format) (toLowerS (parseStyle t).background) := by
  obtain ⟨-, hw, -, -, heq⟩ := parseStyle_enable_spec h
  have hws := whRe_spec hw
  have hcw : (wlit t).all isDigitC = true := hws.2.1
  have hch : (hlit t).all isDigitC = true := hws.2.2.1
  unfold ResizeStyle.getIndexName mkKey
  rw [if_pos h]
  rw [heq]
  simp only [toLowerS, List.map_append, List.map_cons]
  rw [show lowerC '.' = '.' from by decide, show lowerC 'x' = 'x' from by decide]
  rw [map_lowerC_digits hcw, map_lowerC_digits hch]
  simp [List.append_assoc]

lemma digits_wh_ne_dot {cw ch : Str} (hcw : cw.all isDigitC = true)
    (hch : ch.all isDigitC = true) : ∀ x ∈ cw ++ 'x' :: ch, x ≠ '.' := by
  intro x hx
  rw [List.all_eq_true] at hcw hch
  rcases List.mem_append.mp hx with hx | hx
  · exact digit_ne_dot (hcw x hx)
  · rcases List.mem_cons.mp hx with rfl | hx
    · decide
    · exact digit_ne_dot (hch x hx)

/-- Parsing a key already in lower-case normal form recovers its four
segments exactly. -/
lemma parseStyle_mkKey {covL cw ch fmtL bgL : Str}
    (hcov : covL = "fit".toList ∨ covL = "fill".toList)
    (hcw : cw.all isDigitC = true) (hch : ch.all isDigitC = true)
    (hne : cw ≠ [] ∨ ch ≠ [])
    (hwb : toNat10 cw ≤ maxDim) (hhb : toNat10 ch ≤ maxDim)
    (hfmt : fmtL = [] ∨ fmtL = "jpg".toList ∨ fmtL = "png".toList ∨ fmtL = "gif".toList)
    (hbg : bgL = "none".toList ∨ bgRe bgL = true) :
    parseStyle (mkKey covL (cw ++ 'x' :: ch) fmtL bgL) =
      { enable := true, cover := covL, canvas_w_string := cw, canvas_h_string := ch,
        format := fmtL, background := bgL } := by
  have hsplit : splitOnChar '.' (mkKey covL (cw ++ 'x' :: ch) fmtL bgL)
      = [covL, cw ++ 'x' :: ch, fmtL, bgL] := by
    refine splitOnChar_mkKey ?_ (digits_wh_ne_dot hcw hch) ?_ ?_
    · rcases hcov with rfl | rfl <;> decide
    · rcases hfmt with rfl | rfl | rfl | rfl <;> decide
    · rcases hbg with rfl | hbg
      · decide
      · intro x hx
        exact hex_ne_dot (List.all_eq_true.mp (bgRe_hex hbg) x hx)
  have hwh : splitOnChar 'x' (cw ++ 'x' :: ch) = [cw, ch] := by
    rw [List.all_eq_true] at hcw hch
    rw [splitOnChar_append_sep fun c hc => digit_ne_x (hcw c hc),
      splitOnChar_no_sep fun c hc => digit_ne_x (hch c hc)]
  have hseg0 : seg0 (mkKey covL (cw ++ 'x' :: ch) fmtL bgL) = covL := by
    unfold seg0; rw [hsplit]; rfl
  have hseg1 : seg (mkKey covL (cw ++ 'x' :: ch) fmtL bgL) 1 = cw ++ 'x' :: ch := by
    unfold seg; rw [hsplit]; rfl
  have hseg2 : seg (mkKey covL (cw ++ 'x' :: ch) fmtL bgL) 2 = fmtL := by
    unfold seg; rw [hsplit]; rfl
  have hseg3 : seg (mkKey covL (cw ++ 'x' :: ch) fmtL bgL) 3 = bgL := by
    unfold seg; rw [hsplit]; rfl
  have hwlit : wlit (mkKey covL (cw ++ 'x' :: ch) fmtL bgL) = cw := by
    unfold wlit; rw [hseg1, hwh]; rfl
  have hhlit : hlit (mkKey covL (cw ++ 'x' :: ch) fmtL bgL) = ch := by
    unfold hlit; rw [hseg1, hwh]; rfl
  have hcovRe : coverRe covL = true := by
    rcases hcov with rfl | rfl <;> decide
  have hwhRe : whRe (cw ++ 'x' :: ch) = true := by
    unfold whRe
    rw [hwh]
    simp only [Bool.and_eq_true, Bool.or_eq_true, Bool.not_eq_true']
    refine ⟨⟨hcw, hch⟩, ?_⟩
    rcases hne with hne | hne
    · exact Or.inl (by simpa [List.isEmpty_iff] using hne)
    · exact Or.inr (by simpa [List.isEmpty_iff] using hne)
  have hfmtRe : formatRe fmtL = true := by
    rcases hfmt with rfl | rfl | rfl | rfl <;> decide
  unfold parseStyle
  rw [hseg0, hseg1, hseg2, hseg3, hwlit, hhlit, hcovRe, hwhRe]
  rw [if_neg (by simp), if_neg (by simp)]
  rw [if_neg (by push_neg; omega)]
  rw [if_pos hfmtRe]
  rcases hbg with rfl | hbg
  · rw [if_neg (by decide)]
  · rw [if_pos hbg]

/-- The lower-cased fields of any valid spec, in normal form. -/
lemma parseStyle_norm {t : Str} (h : (parseStyle t).enable = true) :
    (toLowerS (parseStyle t).cover = "fit".toList ∨
      toLowerS (parseStyle t).cover = "fill".toList) ∧
    (parseStyle t).canvas_w_string.all isDigitC = true ∧
    (parseStyle t).canvas_h_string.all isDigitC = true ∧
    ((parseStyle t).canvas_w_string ≠ [] ∨ (parseStyle t).canvas_h_string ≠ []) ∧
    toNat10 (parseStyle t).canvas_w_string ≤ maxDim ∧
    toNat10 (parseStyle t).canvas_h_string ≤ maxDim ∧
    (toLowerS (parseStyle t).format = [] ∨
      toLowerS (parseStyle t).format = "jpg".toList ∨
      toLowerS (parseStyle t).format = "png".toList ∨
      toLowerS (parseStyle t).format = "gif".toList) ∧
    (toLowerS (parseStyle t).background = "none".toList ∨
      bgRe (toLowerS (parseStyle t).background) = true) := by
  obtain ⟨hc, hw, hwb, hhb, heq⟩ := parseStyle_enable_spec h
  have hws := whRe_spec hw
  have hcw : (wlit t).all isDigitC = true := hws.2.1
  have hch : (hlit t).all isDigitC = true := hws.2.2.1
  have hne : wlit t ≠ [] ∨ hlit t ≠ [] := hws.2.2.2
  rw [heq]
  simp only []
  refine ⟨coverRe_spec hc, hcw, hch, hne, hwb, hhb, ?_, ?_⟩
  · by_cases hf : formatRe (seg t 2) = true
    · rw [if_pos hf]
      have := (by simpa [formatRe, Bool.or_eq_true, decide_eq_true_eq] using hf :
        ((toLowerS (seg t 2) = "jpg".toList ∨ toLowerS (seg t 2) = "png".toList) ∨
          toLowerS (seg t 2) = "gif".toList) ∨ toLowerS (seg t 2) = [])
      tauto
    · rw [if_neg hf]
      exact Or.inr (Or.inl (by decide))
  · by_cases hb : bgRe (seg t 3) = true
    · rw [if_pos hb]
      rw [show toLowerS (seg t 3) = seg t 3 from map_lowerC_hex (bgRe_hex hb)]
      exact Or.inr hb
    · rw [if_neg hb]
      exact Or.inl (by decide)

/-- Claim C9: parsing a valid token and re-parsing its cache-key suffix
yields a valid spec whose cache-key suffix is the same string — key
generation is idempotent under one re-parse round trip. -/
theorem claim9_roundtrip {t : Str} (h : (parseStyle t).enable = true) :
    (parseStyle ((parseStyle t).getIndexName)).enable = true ∧
    (parseStyle ((parseStyle t).getIndexName)).getIndexName
      = (parseStyle t).getIndexName := by
  obtain ⟨hcov, hcw, hch, hne, hwb, hhb, hfmt, hbg⟩ := parseStyle_norm h
  have hkey := getIndexName_eq h
  have hre := parseStyle_mkKey hcov hcw hch hne hwb hhb hfmt hbg
  rw [hkey, hre]
  refine ⟨rfl, ?_⟩
  unfold ResizeStyle.getIndexName
  rw [if_pos rfl]
  simp only []
  simp only [toLowerS, List.map_append, List.map_cons] at *
  rw [show lowerC '.' = '.' from by decide, show lowerC 'x' = 'x' from by decide]
  rw [map_lowerC_digits hcw, map_lowerC_digits hch]
  rw [show List.map lowerC (List.map lowerC (parseStyle t).cover)
      = List.map lowerC (parseStyle t).cover from by
    rcases hcov with hc | hc <;> rw [hc] <;> decide]
  rw [show List.map lowerC (List.map lowerC (parseStyle t).format)
      = List.map lowerC (parseStyle t).format from by
    rcases hfmt with hc | hc | hc | hc <;> rw [hc] <;> decide]
  rw [show List.map lowerC (List.map lowerC (parseStyle t).background)
      = List.map lowerC (parseStyle t).background from by
    rcases hbg with hc | hc
    · rw [hc]; decide
    · exact map_lowerC_hex (bgRe_hex hc)]
  simp [mkKey, List.append_assoc]

/-! ## Further helpers for the claims -/

lemma ite_lt_eq_min (a b : Nat) : (if a < b then a else b) = min a b := by
  by_cases h : a < b
  · rw [if_pos h]; omega
  · rw [if_neg h]; omega

/-- The four dot-separated components of a valid spec's cache-key
suffix. -/
lemma indexName_components {t : Str} (h : (parseStyle t).enable = true) :
    splitOnChar '.' ((parseStyle t).getIndexName)
      = [toLowerS (parseStyle t).cover,
         (parseStyle t).canvas_w_string ++ 'x' :: (parseStyle t).canvas_h_string,
         toLowerS (parseStyle t).format, toLowerS (parseStyle t).background] := by
  obtain ⟨hcov, hcw, hch, hne, hwb, hhb, hfmt, hbg⟩ := parseStyle_norm h
  rw [getIndexName_eq h]
  refine splitOnChar_mkKey ?_ (digits_wh_ne_dot hcw hch) ?_ ?_
  · rcases hcov with hc | hc <;> rw [hc] <;> decide
  · rcases hfmt with hc | hc | hc | hc <;> rw [hc] <;> decide
  · rcases hbg with hc | hc
    · rw [hc]; decide
    · intro x hx
      exact hex_ne_dot (List.all_eq_true.mp (bgRe_hex hc) x hx)

/-! ## The claims -/

/-- Claim C4: for every token, the cache-key suffix of the parsed spec is
the lower-cased concatenation `cover + '.' + widthLiteral + 'x' +
heightLiteral + '.' + format + '.' + background`, where the width/height
literals are the original segment strings of the token, when the spec is
valid, and the literal string `full` when it is invalid. -/
theorem claim4_cache_key_literal (t : Str) :
    (parseStyle t).getIndexName =
      if (parseStyle t).enable then
        toLowerS (mkKey (seg0 t) (wlit t ++ 'x' :: hlit t)
          ((parseStyle t).format) ((parseStyle t).background))
      else "full".toList := by
  by_cases he : (parseStyle t).enable = true
  · rw [if_pos he, getIndexName_eq he]
    obtain ⟨-, hw, -, -, heq⟩ := parseStyle_enable_spec he
    have hws := whRe_spec hw
    have hcw : (wlit t).all isDigitC = true := hws.2.1
    have hch : (hlit t).all isDigitC = true := hws.2.2.1
    rw [heq]
    simp only []
    unfold mkKey
    simp only [toLowerS, List.map_append, List.map_cons]
    rw [show lowerC '.' = '.' from by decide, show lowerC 'x' = 'x' from by decide]
    rw [map_lowerC_digits hcw, map_lowerC_digits hch]
  · have he' : (parseStyle t).enable = false := by simpa using he
    rw [he']
    unfold ResizeStyle.getIndexName
    rw [he']
    rfl

/-- Claim C7: a token whose cover segment passes the cover regex but whose
width or height segment has numeric value above 2048 never parses as
valid, and every valid spec has both target dimensions at most 2048. -/
theorem claim7_dimension_cap (t : Str) :
    ((coverRe (seg0 t) = true ∧
        (toNat10 (wlit t) > maxDim ∨ toNat10 (hlit t) > maxDim)) →
      (parseStyle t).enable = false) ∧
    ((parseStyle t).enable = true →
      (parseStyle t).getWidth ≤ maxDim ∧ (parseStyle t).getHeight ≤ maxDim) := by
  constructor
  · rintro ⟨hc, hd⟩
    have hc' : ¬(coverRe (seg0 t) = false) := by simp [hc]
    by_cases hw : whRe (seg t 1) = false
    · unfold parseStyle
      rw [if_neg hc', if_pos hw]
    · unfold parseStyle
      rw [if_neg hc', if_neg hw, if_pos hd]
  · intro he
    obtain ⟨-, -, hwb, hhb, heq⟩ := parseStyle_enable_spec he
    unfold ResizeStyle.getWidth ResizeStyle.getHeight
    rw [heq]
    exact ⟨hwb, hhb⟩

theorem claim7_witness :
    (parseStyle "fit.3000x10".toList).enable = false ∧
    ((parseStyle "fill.2048x100".toList).getWidth ≤ maxDim ∧
      (parseStyle "fill.2048x100".toList).getHeight ≤ maxDim) :=
  ⟨(claim7_dimension_cap "fit.3000x10".toList).1 ⟨by decide, Or.inl (by decide)⟩,
   (claim7_dimension_cap "fill.2048x100".toList).2 (by decide)⟩

theorem claim9_witness :
    (parseStyle ((parseStyle "FIT.10x20.PNG.abc".toList).getIndexName)).enable = true ∧
    (parseStyle ((parseStyle "FIT.10x20.PNG.abc".toList).getIndexName)).getIndexName
      = (parseStyle "FIT.10x20.PNG.abc".toList).getIndexName :=
  claim9_roundtrip (by decide)

/-- Claim C1, counterexample: the token `fit.1x1.` parses as valid and its
format segment is present but empty; the format regex's empty alternative
accepts it, so the spec's format is the empty string, not `jpg`, and the
cache-key suffix is `fit.1x1..none`. -/
theorem claim1_cex :
    (parseStyle "fit.1x1.".toList).enable = true ∧
    (splitOnChar '.' "fit.1x1.".toList).get? 2 = some [] ∧
    (parseStyle "fit.1x1.".toList).getFormat ≠ "jpg".toList ∧
    (parseStyle "fit.1x1.".toList).getIndexName = "fit.1x1..none".toList := by
  decide

/-- Claim C1 (amended): for a valid token, the format defaults to `jpg`
when the format segment is absent or is non-empty and fails the
case-insensitive `jpg|png|gif` test; a present-but-empty segment instead
yields the empty-string format, and the key's format field is empty. -/
theorem claim1_format_default {t : Str} (h : (parseStyle t).enable = true) :
    (((splitOnChar '.' t).get? 2 = none ∨
        (∃ s2, (splitOnChar '.' t).get? 2 = some s2 ∧ s2 ≠ [] ∧ formatRe s2 = false)) →
      (parseStyle t).getFormat = "jpg".toList ∧
      (splitOnChar '.' ((parseStyle t).getIndexName)).get? 2 = some ("jpg".toList)) ∧
    ((splitOnChar '.' t).get? 2 = some [] →
      (parseStyle t).getFormat = [] ∧
      (splitOnChar '.' ((parseStyle t).getIndexName)).get? 2 = some []) := by
  obtain ⟨-, -, -, -, heq⟩ := parseStyle_enable_spec h
  have hcomp := indexName_components h
  constructor
  · intro hcase
    have hfmt : (parseStyle t).format = "jpg".toList := by
      rw [heq]
      simp only []
      rcases hcase with hc | ⟨s2, hs2, hne2, hfre⟩
      · rw [if_neg]
        intro hf
        unfold seg at hf
        rw [hc] at hf
        exact absurd hf (by decide)
      · rw [if_neg]
        unfold seg
        rw [hs2]
        simp [hfre]
    have hfmt' : toLowerS (parseStyle t).format = "jpg".toList := by
      rw [hfmt]; decide
    refine ⟨hfmt, ?_⟩
    rw [hcomp, hfmt']
    rfl
  · intro hcase
    have hseg : seg t 2 = [] := by
      unfold seg; rw [hcase]; rfl
    have hfmt : (parseStyle t).format = [] := by
      rw [heq]
      simp only []
      rw [hseg]
      rw [if_pos (by decide)]
    have hfmt' : toLowerS (parseStyle t).format = [] := by
      rw [hfmt]; rfl
    refine ⟨hfmt, ?_⟩
    rw [hcomp, hfmt']
    rfl

theorem claim1_witness :
    (parseStyle "fit.1x1.zzz.fff".toList).getFormat = "jpg".toList ∧
    (splitOnChar '.' ((parseStyle "fit.1x1.zzz.fff".toList).getIndexName)).get? 2
      = some ("jpg".toList) :=
  (claim1_format_default (by decide)).1
    (Or.inr ⟨"zzz".toList, by decide, by decide, by decide⟩)

/-- Claim C2, counterexample: `FIT.10x20` is accepted by the parser (the
cover regex is case-insensitive), but `getResizeData` compares the stored
cover with `'fit'` case-sensitively, so this portrait source takes the
fill branch and constrains the width, not the height as the claim
predicts. -/
theorem claim2_cex :
    (parseStyle "FIT.10x20".toList).enable = true ∧
    (parseStyle "FIT.10x20".toList).isKeepAspect = false ∧
    (parseStyle "FIT.10x20".toList).getResizeData 1 2 = (1, 0) ∧
    (parseStyle "FIT.10x20".toList).getResizeData 1 2
      ≠ (0, min 2 ((parseStyle "FIT.10x20".toList).getHeight)) := by
  decide

/-- Claim C2 (amended): for a valid non-keep-aspect spec whose stored
cover is exactly the lower-case string `fit`, `getResizeData` constrains
the longer source axis: portrait sources get `(0, min(h, targetHeight))`
and landscape-or-square sources get `(min(w, targetWidth), 0)`. -/
theorem claim2_fit_resize {t : Str} (w h : Nat)
    (he : (parseStyle t).enable = true)
    (hc : (parseStyle t).cover = "fit".toList)
    (hk : (parseStyle t).isKeepAspect = false) :
    (parseStyle t).getResizeData w h =
      if w < h then (0, min h ((parseStyle t).getHeight))
      else (min w ((parseStyle t).getWidth), 0) := by
  unfold ResizeStyle.getResizeData
  rw [hc]
  by_cases hwh : w < h
  · rw [if_pos hwh, if_pos hwh, if_pos rfl, ite_lt_eq_min]
  · rw [if_neg hwh, if_neg hwh, if_pos rfl, ite_lt_eq_min]

theorem claim2_witness :
    (parseStyle "fit.10x20".toList).getResizeData 5 3 =
      if 5 < 3 then (0, min 3 ((parseStyle "fit.10x20".toList).getHeight))
      else (min 5 ((parseStyle "fit.10x20".toList).getWidth), 0) :=
  claim2_fit_resize 5 3 (by decide) (by decide) (by decide)

/-- Claim C8, counterexample: `fill.0x100` is valid and not keep-aspect
(both literals non-empty, `"0"` is truthy), yet on a portrait source the
constrained width is `min(1, 0) = 0`, so the result is `(0, 0)` — not a
pair with exactly one zero component. -/
theorem claim8_cex :
    (parseStyle "fill.0x100".toList).enable = true ∧
    (parseStyle "fill.0x100".toList).isKeepAspect = false ∧
    (parseStyle "fill.0x100".toList).getResizeData 1 2 = (0, 0) := by
  decide

/-- Claim C8 (amended): for a valid non-keep-aspect spec,
`getResizeData` returns either `(0, min(h, targetHeight))` or
`(min(w, targetWidth), 0)` — the constrained component never exceeds the
source or the target dimension on its axis — and when the source
dimensions and both target dimensions are positive, exactly one component
is zero. -/
theorem claim8_resize_shape {t : Str} (w h : Nat)
    (he : (parseStyle t).enable = true)
    (hk : (parseStyle t).isKeepAspect = false) :
    ((parseStyle t).getResizeData w h = (0, min h ((parseStyle t).getHeight)) ∨
      (parseStyle t).getResizeData w h = (min w ((parseStyle t).getWidth), 0)) ∧
    (0 < w → 0 < h → 0 < (parseStyle t).getWidth → 0 < (parseStyle t).getHeight →
      ((((parseStyle t).getResizeData w h).1 = 0 ∧
          ((parseStyle t).getResizeData w h).2 ≠ 0) ∨
        (((parseStyle t).getResizeData w h).1 ≠ 0 ∧
          ((parseStyle t).getResizeData w h).2 = 0))) := by
  unfold ResizeStyle.getResizeData
  by_cases hwh : w < h
  · by_cases hcov : (parseStyle t).cover = "fit".toList
    · rw [if_pos hwh, if_pos hcov, ite_lt_eq_min]
      refine ⟨Or.inl rfl, fun h1 h2 h3 h4 => Or.inl ⟨rfl, ?_⟩⟩
      simp only []
      omega
    · rw [if_pos hwh, if_neg hcov, ite_lt_eq_min]
      refine ⟨Or.inr rfl, fun h1 h2 h3 h4 => Or.inr ⟨?_, rfl⟩⟩
      simp only []
      omega
  · by_cases hcov : (parseStyle t).cover = "fit".toList
    · rw [if_neg hwh, if_pos hcov, ite_lt_eq_min]
      refine ⟨Or.inr rfl, fun h1 h2 h3 h4 => Or.inr ⟨?_, rfl⟩⟩
      simp only []
      omega
    · rw [if_neg hwh, if_neg hcov, ite_lt_eq_min]
      refine ⟨Or.inl rfl, fun h1 h2 h3 h4 => Or.inl ⟨rfl, ?_⟩⟩
      simp only []
      omega

theorem claim8_witness :
    ((parseStyle "fill.30x40".toList).getResizeData 7 9
        = (0, min 9 ((parseStyle "fill.30x40".toList).getHeight)) ∨
      (parseStyle "fill.30x40".toList).getResizeData 7 9
        = (min 7 ((parseStyle "fill.30x40".toList).getWidth), 0)) ∧
    (0 < 7 → 0 < 9 → 0 < (parseStyle "fill.30x40".toList).getWidth →
      0 < (parseStyle "fill.30x40".toList).getHeight →
      ((((parseStyle "fill.30x40".toList).getResizeData 7 9).1 = 0 ∧
          ((parseStyle "fill.30x40".toList).getResizeData 7 9).2 ≠ 0) ∨
        (((parseStyle "fill.30x40".toList).getResizeData 7 9).1 ≠ 0 ∧
          ((parseStyle "fill.30x40".toList).getResizeData 7 9).2 = 0))) :=
  claim8_resize_shape 7 9 (by decide) (by decide)

/-- Claim C3: when the cache get at `filename + '_' + suffix` (under the
cache key prefix) succeeds, the handler answers 200 with the cached bytes
base64-encoded and the cached content type, and the run's only effect is
that one cache read — no origin get, no transformer call, no cache put. -/
theorem claim3_cache_hit (path cPfx oPfx : Str) (env : Env) (obj : S3Object)
    (h : env.cacheGet = GetResult.found obj) :
    handler path cPfx oPfx env =
      (Outcome.response
        { statusCode := 200, contentTypeHeader := some obj.contentType,
          isBase64Encoded := true, body := base64Encode obj.body },
       [Effect.cacheGetE
          (cPfx ++ filenameOf path ++ '_' :: (parseStyle (paramsOf path)).getIndexName)]) := by
  unfold handler
  rw [h]
  rfl

theorem claim3_witness :
    handler "photo/fit.200x100".toList "c/".toList "o/".toList
        ⟨GetResult.found ⟨[1, 2, 3], "image/png".toList, false⟩,
          GetResult.err [], true, ImgResult.err [], ImgResult.err []⟩ =
      (Outcome.response
        { statusCode := 200, contentTypeHeader := some ("image/png".toList),
          isBase64Encoded := true, body := base64Encode [1, 2, 3] },
       [Effect.cacheGetE ("c/".toList ++ filenameOf "photo/fit.200x100".toList
          ++ '_' :: (parseStyle (paramsOf "photo/fit.200x100".toList)).getIndexName)]) :=
  claim3_cache_hit _ _ _ _ _ rfl

/-- Claim C6: when the cache misses and the origin object carries a truthy
deleted flag, the run ends as the silent `deleted` failure with no cache
put and no response payload. -/
theorem claim6_deleted_no_put (path cPfx oPfx : Str) (env : Env) (obj : S3Object) (e : Str)
    (hc : env.cacheGet = GetResult.err e) (ho : env.originGet = GetResult.found obj)
    (hd : obj.deletedMeta = true) :
    (handler path cPfx oPfx env).1 = Outcome.noResponse FailureKind.deleted ∧
    ∀ k b ct, Effect.cachePutE k b ct ∉ (handler path cPfx oPfx env).2 := by
  refine ⟨?_, fun k b ct => ?_⟩ <;> simp [handler, hc, ho, hd]

theorem claim6_witness :
    (handler "photo/fit.1x1".toList "c/".toList "o/".toList
        ⟨GetResult.err "e".toList, GetResult.found ⟨[9], "image/gif".toList, true⟩,
          true, ImgResult.err [], ImgResult.err []⟩).1
      = Outcome.noResponse FailureKind.deleted ∧
    ∀ k b ct, Effect.cachePutE k b ct ∉
      (handler "photo/fit.1x1".toList "c/".toList "o/".toList
        ⟨GetResult.err "e".toList, GetResult.found ⟨[9], "image/gif".toList, true⟩,
          true, ImgResult.err [], ImgResult.err []⟩).2 :=
  claim6_deleted_no_put _ _ _ _ _ _ rfl rfl rfl

/-- Claim C5, counterexample: an invalid (absent) style token with a cache
miss, a live origin object and a failing cache put: the pipeline attempts
the `_full` upload but terminates as `uploadFailed` with no 200 response,
contradicting the claim's unconditional "responds 200". -/
theorem claim5_cex :
    (parseStyle (paramsOf "img".toList)).isValid = false ∧
    (handler "img".toList [] []
        ⟨GetResult.err [], GetResult.found ⟨[5], "image/png".toList, false⟩,
          false, ImgResult.err [], ImgResult.err []⟩).1
      = Outcome.noResponse FailureKind.uploadFailed ∧
    Effect.cachePutE ("img_full".toList) [5] "image/png".toList ∈
      (handler "img".toList [] []
        ⟨GetResult.err [], GetResult.found ⟨[5], "image/png".toList, false⟩,
          false, ImgResult.err [], ImgResult.err []⟩).2 := by
  decide

/-- Claim C5 (amended): for an invalid style token, when the cache misses,
the origin get succeeds without the deleted flag, and the cache put
succeeds, the handler uploads the original bytes under the `_full` cache
key and answers 200 with the original bytes base64-encoded under the
original content type (a failing put instead ends as `uploadFailed` with
no response). -/
theorem claim5_invalid_passthrough (path cPfx oPfx : Str) (env : Env) (obj : S3Object)
    (e : Str)
    (hinv : (parseStyle (paramsOf path)).isValid = false)
    (hc : env.cacheGet = GetResult.err e) (ho : env.originGet = GetResult.found obj)
    (hd : obj.deletedMeta = false) (hu : env.uploadOk = true) :
    handler path cPfx oPfx env =
      (Outcome.response
        { statusCode := 200, contentTypeHeader := some obj.contentType,
          isBase64Encoded := true, body := base64Encode obj.body },
       [Effect.cacheGetE (cPfx ++ filenameOf path ++ '_' :: "full".toList),
        Effect.originGetE (oPfx ++ filenameOf path),
        Effect.cachePutE (cPfx ++ filenameOf path ++ '_' :: "full".toList)
          obj.body obj.contentType]) := by
  have hfull : (parseStyle (paramsOf path)).getIndexName = "full".toList := by
    unfold ResizeStyle.getIndexName
    rw [if_neg]
    simp only [ResizeStyle.isValid] at hinv
    simp [hinv]
  simp [handler, hc, ho, hd, hfull, hinv, hu, mkPayload]

theorem claim5_witness :
    handler "img".toList "c/".toList "o/".toList
        ⟨GetResult.err [], GetResult.found ⟨[5], "image/png".toList, false⟩,
          true, ImgResult.err [], ImgResult.err []⟩ =
      (Outcome.response
        { statusCode := 200, contentTypeHeader := some ("image/png".toList),
          isBase64Encoded := true, body := base64Encode [5] },
       [Effect.cacheGetE ("c/".toList ++ filenameOf "img".toList ++ '_' :: "full".toList),
        Effect.originGetE ("o/".toList ++ filenameOf "img".toList),
        Effect.cachePutE ("c/".toList ++ filenameOf "img".toList ++ '_' :: "full".toList)
          [5] "image/png".toList]) :=
  claim5_invalid_passthrough _ _ _ _ _ _ (by decide) rfl rfl rfl rfl

/-- Every run whose cache get errors proceeds to the origin get: its trace
starts with the cache read followed by the origin read, whatever happens
afterwards. -/
lemma handler_trace_err (path cPfx oPfx : Str) (env : Env) (e : Str)
    (hc : env.cacheGet = GetResult.err e) :
    ∃ rest, (handler path cPfx oPfx env).2
      = Effect.cacheGetE
          (cPfx ++ filenameOf path ++ '_' :: (parseStyle (paramsOf path)).getIndexName)
        :: Effect.originGetE (oPfx ++ filenameOf path) :: rest := by
  unfold handler
  simp only [hc]
  rcases ho : env.originGet with obj | e3
  · simp only [ho]
    by_cases hd : obj.deletedMeta = true
    · rw [if_pos hd]
      exact ⟨[], rfl⟩
    · rw [if_neg hd]
      by_cases hv : (!(parseStyle (paramsOf path)).isValid) = true
      · rw [if_pos hv]
        by_cases hu : env.uploadOk = true
        · rw [if_pos hu]; exact ⟨_, rfl⟩
        · rw [if_neg hu]; exact ⟨_, rfl⟩
      · rw [if_neg hv]
        by_cases hk : (parseStyle (paramsOf path)).isKeepAspect = true
        · rw [if_pos hk]
          rcases hr : env.resizeResult with rb | re
          · simp only [hr]
            by_cases hu : env.uploadOk = true
            · rw [if_pos hu]; exact ⟨_, rfl⟩
            · rw [if_neg hu]; exact ⟨_, rfl⟩
          · simp only [hr]; exact ⟨_, rfl⟩
        · rw [if_neg hk]
          rcases hr : env.convertResult with cb | ce
          · simp only [hr]
            by_cases hu : env.uploadOk = true
            · rw [if_pos hu]; exact ⟨_, rfl⟩
            · rw [if_neg hu]; exact ⟨_, rfl⟩
          · simp only [hr]; exact ⟨_, rfl⟩
  · simp only [ho]
    exact ⟨[], rfl⟩

/-- Claim C10: a cache-get error of any kind is a plain cache miss: the
run always goes on to the origin get, and its whole outcome and trace are
the same whatever the error was — no failure kind reports a failed cache
read. -/
theorem claim10_cache_error_is_miss (path cPfx oPfx : Str) (env : Env) (e e2 : Str)
    (hc : env.cacheGet = GetResult.err e) :
    Effect.originGetE (oPfx ++ filenameOf path) ∈ (handler path cPfx oPfx env).2 ∧
    handler path cPfx oPfx env
      = handler path cPfx oPfx { env with cacheGet := GetResult.err e2 } := by
  constructor
  · obtain ⟨rest, hrest⟩ := handler_trace_err path cPfx oPfx env e hc
    rw [hrest]
    simp
  · unfold handler
    rw [hc]

theorem claim10_witness :
    Effect.originGetE ("o/".toList ++ filenameOf "photo/fit.1x1".toList) ∈
      (handler "photo/fit.1x1".toList "c/".toList "o/".toList
        ⟨GetResult.err "AccessDenied".toList, GetResult.err [], true,
          ImgResult.err [], ImgResult.err []⟩).2 ∧
    handler "photo/fit.1x1".toList "c/".toList "o/".toList
        ⟨GetResult.err "AccessDenied".toList, GetResult.err [], true,
          ImgResult.err [], ImgResult.err []⟩
      = handler "photo/fit.1x1".toList "c/".toList "o/".toList
          ⟨GetResult.err "Throttled".toList, GetResult.err [], true,
            ImgResult.err [], ImgResult.err []⟩ :=
  claim10_cache_error_is_miss _ _ _ _ _ ("Throttled".toList) rfl
